import Mathlib

/-!
Verification development for the billing-KPI ETL pipeline
(`Codigo/etl_modules/{config,io_module,processing,transformation,output}.py`).

Tabular data is embedded shallowly: a DataFrame is a list of rows, a row is a
structure whose fields are the columns the transformations read.  Missing cell
values (`NaN`/`NaT`) are `Option.none`; numeric cells are `Int`/`ℚ`; Python
floats are modelled by exact rationals.  Functions keep the Python names where
Lean allows it.
-/

/-! ### Character-level utilities shared by `normalize_text` (io_module) and
`filter_batchman_vectorized` (processing) -/

/-- Characters matched by the regex class `\s` in Python (`str` patterns match
Unicode whitespace). -/
def pyIsSpace (c : Char) : Bool :=
  c == ' ' || c == '\t' || c == '\n' || c == '\r' || c == '\x0b' || c == '\x0c' ||
  c == '\u001c' || c == '\u001d' || c == '\u001e' || c == '\u001f' || c == '\u0085' ||
  c == '\u00A0' || c == '\u1680' || (('\u2000' ≤ c) && (c ≤ '\u200A')) ||
  c == '\u2028' || c == '\u2029' || c == '\u202F' || c == '\u205F' || c == '\u3000'

def isLowerAZ (c : Char) : Bool := 'a' ≤ c && c ≤ 'z'

def isDigitCh (c : Char) : Bool := '0' ≤ c && c ≤ '9'

/-- Replacement of every maximal run of whitespace by a single `' '`
(the regex substitution `re.sub(r'\s+', ' ', text)`). -/
def collapseWS : List Char → List Char
  | [] => []
  | [c] => if pyIsSpace c then [' '] else [c]
  | a :: b :: rest =>
    if pyIsSpace a && pyIsSpace b then collapseWS (b :: rest)
    else (if pyIsSpace a then ' ' else a) :: collapseWS (b :: rest)

/-- Removal of trailing whitespace, the right half of Python's `str.strip()`. -/
def dropTrailingWS : List Char → List Char
  | [] => []
  | c :: rest =>
    let r := dropTrailingWS rest
    if r.isEmpty then (if pyIsSpace c then [] else [c]) else c :: r

/-- Python's `str.strip()`: remove leading and trailing whitespace. -/
def trimWS (l : List Char) : List Char := dropTrailingWS (l.dropWhile pyIsSpace)

/-! ### `normalize_text` (io_module.py lines 22-64)

The steps of the source, in order: lowercase; replace every character outside
`[a-z0-9\s]` by a space; delete every token that contains a digit
(`re.sub(r'\b\w*\d+\w*\b', '', text)` — after the previous step the string is
over `[a-z0-9]` plus whitespace, so the `\w`-tokens are exactly the maximal
non-whitespace runs); collapse whitespace runs; strip the ends.  `pd.isna`
input (embedded as `none`) and the empty string are returned unchanged. -/

/-- Second step of `normalize_text`: `re.sub(r'[^a-z0-9\s]', ' ', text)`. -/
def replaceSpecial (l : List Char) : List Char :=
  l.map (fun c => if isLowerAZ c || isDigitCh c || pyIsSpace c then c else ' ')

/-- Emission of one buffered token: dropped entirely when it contains a digit. -/
def emitTok (buf : List Char) : List Char := if buf.any isDigitCh then [] else buf

/-- Scanner for the token-deletion step; `buf` holds the current (reversed-free)
token being accumulated. -/
def remAux (buf : List Char) : List Char → List Char
  | [] => emitTok buf
  | c :: rest =>
    if pyIsSpace c then emitTok buf ++ c :: remAux [] rest
    else remAux (buf ++ [c]) rest

/-- Third step of `normalize_text`: delete every whitespace-delimited token
containing a digit. -/
def removeNumericTokens (l : List Char) : List Char := remAux [] l

/-- Whole `normalize_text` pipeline on the character list of a non-empty
string. -/
def normChars (l : List Char) : List Char :=
  trimWS (collapseWS (removeNumericTokens (replaceSpecial (l.map Char.toLower))))

/-- Python `normalize_text` (io_module.py).  `none` embeds a `pd.isna` cell and
is passed through, as is the empty string. -/
def normalize_text : Option String → Option String
  | none => none
  | some s => if s = "" then some s else some (String.mk (normChars s.data))

/-! ### `filter_batchman_vectorized`, `ChunkProcessor` and `clean_data`
(processing.py lines 16-176)

A row of the raw DB sheet is embedded by the one column the phrase filter
reads, `'Work item text'` (`none` = `NaN`), plus an abstract payload standing
for all remaining columns. -/

structure WRow where
  workItem : Option String
  payload : Nat
deriving DecidableEq

/-- Python `astype(str)` renders a missing value as the string `"nan"`. -/
def cellStr : Option String → String
  | none => "nan"
  | some s => s

/-- Invisible-whitespace variants replaced by the regex character class
`[\u00A0\u200B\u200C\u200D\uFEFF]` in `filter_batchman_vectorized`. -/
def isInvisibleWS (c : Char) : Bool :=
  c == '\u00A0' || c == '\u200B' || c == '\u200C' || c == '\u200D' || c == '\uFEFF'

/-- Text normalisation applied to `'Work item text'` before the phrase test:
replace invisible-whitespace variants by spaces, collapse whitespace runs,
strip, lowercase. -/
def fbClean (s : String) : String :=
  String.mk
    ((trimWS (collapseWS (s.data.map (fun c => if isInvisibleWS c then ' ' else c)))).map
      Char.toLower)

def isPrefixList : List Char → List Char → Bool
  | [], _ => true
  | _ :: _, [] => false
  | a :: as, b :: bs => a == b && isPrefixList as bs

/-- Substring test (`str.contains(..., regex=False)`). -/
def containsSub (s pat : List Char) : Bool :=
  (List.range (s.length + 1)).any (fun i => isPrefixList pat (s.drop i))

/-- Constant `FILTER_TEXT` of config.py. -/
def FILTER_TEXT : String := "is currently being processed"

/-- Row-keeping predicate of `filter_batchman_vectorized`: keep the rows whose
normalised work-item text does not contain the banned phrase. -/
def fbKeep (r : WRow) : Bool :=
  !containsSub (fbClean (cellStr r.workItem)).data FILTER_TEXT.data

/-- Python `filter_batchman_vectorized` applied to one chunk (the
`'Work item text'` column is present by construction of `WRow`). -/
def filter_batchman_vectorized (chunk : List WRow) : List WRow := chunk.filter fbKeep

/-- Fuelled splitting of a list into chunks of `csz` rows
(`ChunkProcessor._chunk_generator`, i.e. `df.iloc[start:start+chunk_size]` for
`start in range(0, len(df), chunk_size)`).  The fuel is the list length, enough
for every positive `csz`; Python raises for step 0, which is never used. -/
def chunksGo (csz : Nat) : Nat → List WRow → List (List WRow)
  | 0, _ => []
  | fuel + 1, l => if l.isEmpty then [] else l.take csz :: chunksGo csz fuel (l.drop csz)

def chunkList (csz : Nat) (l : List WRow) : List (List WRow) := chunksGo csz l.length l

/-- Python `ChunkProcessor.process_in_chunks`: apply `f` to every chunk and
concatenate.  On zero chunks the source calls `pd.concat([])`, which raises
`ValueError` — embedded as `none`. -/
def process_in_chunks (csz : Nat) (f : List WRow → List WRow) (df : List WRow) :
    Option (List WRow) :=
  let cs := chunkList csz df
  if cs.isEmpty then none else some (cs.map f).flatten

/-- Constant `CHUNK_SIZE` of config.py. -/
def CHUNK_SIZE : Nat := 10000

/-- Python `clean_data` (processing.py): run the phrase filter through a
default-sized `ChunkProcessor`.  (The early return for a missing
`'Work item text'` column cannot fire here: `WRow` always carries the
column.) -/
def clean_data (df : List WRow) : Option (List WRow) :=
  process_in_chunks CHUNK_SIZE filter_batchman_vectorized df

/-! ### `merge_with_billing_coordinators` (processing.py lines 179-241)

The two input tables are embedded by their join key `'Plant'` plus an abstract
payload per side.  A raw `'Plant'` cell is an integer, an arbitrary string, or
missing; `pd.to_numeric(..., errors='coerce')` turns a non-numeric cell into
`NaN` (`none`).  The pandas `merge` treats `NaN` as an ordinary key value, so
two `NaN` keys match each other; the embedding therefore joins on equality of
the coerced `Option` values, with `none = none` a match.  Inner-merge row
order follows the left rows, each paired with its matching right rows in
right-table order. -/

inductive PlantCell where
  | num : Int → PlantCell
  | str : String → PlantCell
  | na : PlantCell
deriving DecidableEq

/-- Decimal-digit string parser (the integer fragment of `pd.to_numeric`). -/
def parseNatChars (l : List Char) : Option Nat :=
  if !l.isEmpty && l.all isDigitCh then
    some (l.foldl (fun n c => 10 * n + (c.toNat - 48)) 0)
  else none

/-- Python `pd.to_numeric(col, errors='coerce')` on a plant cell: plant keys
are integer-valued, so a cell parses as an optionally signed decimal integer
and any other string coerces to `NaN`. -/
def to_numeric : PlantCell → Option Int
  | .num n => some n
  | .str s =>
    match s.data with
    | '-' :: rest => (parseNatChars rest).map (fun n => -(n : Int))
    | l => (parseNatChars l).map (fun n => (n : Int))
  | .na => none

structure DbRow where
  plant : PlantCell
  payload : Nat
deriving DecidableEq

structure CoordRow where
  plant : PlantCell
  coordinator : String
deriving DecidableEq

structure DbRowN where
  plant : Option Int
  payload : Nat
deriving DecidableEq

structure CoordRowN where
  plant : Option Int
  coordinator : String
deriving DecidableEq

def coerceDb (r : DbRow) : DbRowN := ⟨to_numeric r.plant, r.payload⟩

def coerceCoord (c : CoordRow) : CoordRowN := ⟨to_numeric c.plant, c.coordinator⟩

/-- Python `merge_with_billing_coordinators`: coerce both `'Plant'` columns to
numeric, then `db_df.merge(coordinators_df, on='Plant', how='inner')`. -/
def merge_with_billing_coordinators (db : List DbRow) (coords : List CoordRow) :
    List (DbRowN × CoordRowN) :=
  let db' := db.map coerceDb
  let cs' := coords.map coerceCoord
  db'.flatMap (fun r => (cs'.filter (fun c => c.plant == r.plant)).map (fun c => (r, c)))

/-- Reported match rate `(after_count / before_count) * 100`; on an empty
left table Python raises `ZeroDivisionError`, embedded as `none`. -/
def merge_match_rate (db : List DbRow) (coords : List CoordRow) : Option ℚ :=
  if db.length = 0 then none
  else some (((merge_with_billing_coordinators db coords).length : ℚ) / db.length * 100)

/-! ### Incident categories (config.py lines 8-49) and `categorize_incidents`
(transformation.py lines 13-39) -/

/-- Constant `INCIDENT_CATEGORIES` of config.py, transcribed verbatim.  Note
the first key is the Spanish `'Contrato'`, not `'Contract'`. -/
def INCIDENT_CATEGORIES : List (String × List String) :=
  [("Contrato",
    ["Error Shipto related to Contract",
     "JWS/APEX - Assign Contract",
     "COMMAND - Assign Contract",
     "COMMAND - Process Error Shipto/Contract",
     "JWS/APEX - Process Error Shipto/Contract"]),
   ("Pricing",
    ["COMMAND - Pricing Incomplete",
     "JWS/APEX - Pricing Incomplete",
     "JWS/APEX - Shipment cost not transferred",
     "COMMAND - Shipment cost not transferred",
     "No Accounting Document for Billing Doc"]),
   ("Interface",
    ["JWS/APEX - Interface Errors",
     "COMMAND - Interface Errors",
     "JWS/APEX - Process Valuation type error"]),
   ("Incomplete",
    ["JWS/APEX - Incomplete Deliveries",
     "JWS/APEX - Incomplete Orders",
     "JWS/APEX - Ticket Inco Terms",
     "COMMAND - Incomplete Orders",
     "COMMAND - Ticket Inco Terms",
     "COMMAND - Incomplete Deliveries"]),
   ("STPO",
    ["JWS/APEX - STPO Errors"]),
   ("Inventory",
    ["COMMAND - Ticket not Goods Issued",
     "JWS/APEX - Ticket not Goods Issued"])]

/-- Reverse index `TASK_TO_CATEGORY` built by the loop in config.py
(`task -> category` pairs in iteration order; the task strings are pairwise
distinct, so lookup order is immaterial). -/
def TASK_TO_CATEGORY : List (String × String) :=
  INCIDENT_CATEGORIES.flatMap (fun p => p.2.map (fun t => (t, p.1)))

/-- Per-row classification of `categorize_incidents`:
`df['Task text'].map(config.TASK_TO_CATEGORY)` followed by `fillna('Other')`. -/
def categorizeTask (s : String) : String := (TASK_TO_CATEGORY.lookup s).getD "Other"

/-! ### Rounding

Python's builtin `round(x, 2)` and pandas `.round(2)` round half to even; the
exact-rational embedding of `round(x, 2)` is `round2`. -/

/-- Round-half-to-even of a rational to an integer. -/
def roundHalfEven (q : ℚ) : ℤ :=
  if q - ⌊q⌋ < 1 / 2 then ⌊q⌋
  else if 1 / 2 < q - ⌊q⌋ then ⌊q⌋ + 1
  else if ⌊q⌋ % 2 = 0 then ⌊q⌋ else ⌊q⌋ + 1

/-- Python `round(x, 2)` on the exact rational value. -/
def round2 (q : ℚ) : ℚ := (roundHalfEven (q * 100) : ℚ) / 100

/-! ### Rows of the joined, agent-filtered, categorized table

One structure carries every column the transformation module reads.  Date
columns hold the day-serial value as converted by
`pd.to_datetime(..., unit='D', origin='1900-01-01', errors='coerce')`:
`none` embeds both an unparsable serial and an out-of-range one (both coerce
to `NaT`). -/

structure Rec where
  agent : String
  plant : Option Int
  date : Option Int
  endDate : Option Int
  id : Int
  taskText : String
  workItem : String
  region : String
  baseUnit : String
  deliveryQty : ℚ
deriving DecidableEq

/-- A `Rec` together with the `'Category'` column appended by
`categorize_incidents`. -/
structure CRec where
  row : Rec
  category : String
deriving DecidableEq

/-- Python `categorize_incidents` (transformation.py): append the `'Category'`
column. -/
def categorize_incidents (df : List Rec) : List CRec :=
  df.map (fun r => ⟨r, categorizeTask r.taskText⟩)

/-! ### Generic grouping helpers

pandas `groupby`/`pivot_table` index keys are the distinct key tuples of the
input; `dedupFirst` lists them in first-occurrence order (pandas sorts group
keys, a difference of presentation order only — no claim below depends on row
order of an output table). -/

def dedupAux {α : Type} [DecidableEq α] (seen : List α) : List α → List α
  | [] => []
  | x :: xs => if seen.contains x then dedupAux seen xs else x :: dedupAux (x :: seen) xs

def dedupFirst {α : Type} [DecidableEq α] (l : List α) : List α := dedupAux [] l

/-- Most frequent element of a non-empty list, first-encountered winner on
ties (`Series.value_counts().index[0]`; ties in `value_counts` follow
first-appearance order). -/
def firstMode (l : List String) : String :=
  l.foldl (fun acc x => if l.count x > l.count acc then x else acc) (l.headD "")

/-! ### `calculate_billing_coordinator_performance`
(transformation.py lines 42-207) -/

/-- Rows of one agent group (`work_df[work_df[agent_column] == name]`). -/
def rowsOfAgent (cdf : List CRec) (a : String) : List CRec :=
  cdf.filter (fun r => r.row.agent == a)

/-- Column `'Dias_Dedicados'`: whole-day difference of the two converted date
columns, with `NaT` differences filled by 0 and negative values clipped to
0. -/
def diasDedicados (r : CRec) : Int :=
  match r.row.date, r.row.endDate with
  | some d, some e => max (e - d) 0
  | _, _ => 0

/-- Group aggregate `'Dias_Dedicados': 'mean'`. -/
def averageDaysOf (cdf : List CRec) (a : String) : ℚ :=
  (((rowsOfAgent cdf a).map diasDedicados).sum : ℤ) / ((rowsOfAgent cdf a).length : ℚ)

/-- Group aggregate `'ID': 'nunique'` (the ids are integers, never `NaN`). -/
def ticketsProcessedOf (cdf : List CRec) (a : String) : Nat :=
  (dedupFirst ((rowsOfAgent cdf a).map (fun r => r.row.id))).length

/-- Group aggregate `'Plant': 'nunique'`; `Series.nunique` drops `NaN`. -/
def associatedPlantsOf (cdf : List CRec) (a : String) : Nat :=
  (dedupFirst ((rowsOfAgent cdf a).filterMap (fun r => r.row.plant))).length

/-- Python `get_category_principal`: most frequent `'Category'` of the agent
after dropping `'Inventory'` rows; `'No Category'` when nothing remains. -/
def get_category_principal (cdf : List CRec) (a : String) : String :=
  let cats := ((rowsOfAgent cdf a).map (fun r => r.category)).filter
    (fun c => c != "Inventory")
  if cats.isEmpty then "No Category" else firstMode cats

/-- Python `get_issue_for_coordinator`: most frequent `'Work item text'` among
the agent's rows of the given category, `'Unknown'` when there are none. -/
def get_issue_for_coordinator (cdf : List CRec) (a cat : String) : String :=
  let ws := ((rowsOfAgent cdf a).filter (fun r => r.category == cat)).map
    (fun r => r.row.workItem)
  if ws.isEmpty then "Unknown" else firstMode ws

/-- Python `count_issue_occurrences`. -/
def count_issue_occurrences (cdf : List CRec) (a cat iss : String) : Nat :=
  (cdf.filter (fun r =>
    r.row.agent == a && r.category == cat && r.row.workItem == iss)).length

/-- Python `count_category_occurrences`. -/
def count_category_occurrences (cdf : List CRec) (a cat : String) : Nat :=
  (cdf.filter (fun r => r.row.agent == a && r.category == cat)).length

/-- Python `calculate_category_percentage` (as exact rational; the source
renders it as a percentage string). -/
def calculate_category_percentage (cdf : List CRec) (a cat : String) : ℚ :=
  let total := (cdf.filter (fun r => r.row.agent == a)).length
  if total = 0 then 0
  else round2 ((count_category_occurrences cdf a cat : ℚ) / total * 100)

structure PerfRow where
  billingCoordinator : String
  averageDaysSpent : ℚ
  ticketsProcessed : Nat
  associatedPlants : Nat
  mainCategory : String
  categoryCount : Nat
  categoryPercentage : ℚ
  issue : String
  occurrences : Nat
deriving DecidableEq

/-- One output row of the performance table for a given agent. -/
def perfRowFor (cdf : List CRec) (a : String) : PerfRow :=
  let mc := get_category_principal cdf a
  let iss := get_issue_for_coordinator cdf a mc
  { billingCoordinator := a
    averageDaysSpent := averageDaysOf cdf a
    ticketsProcessed := ticketsProcessedOf cdf a
    associatedPlants := associatedPlantsOf cdf a
    mainCategory := mc
    categoryCount := count_category_occurrences cdf a mc
    categoryPercentage := calculate_category_percentage cdf a mc
    issue := iss
    occurrences := count_issue_occurrences cdf a mc iss }

/-- Python `calculate_billing_coordinator_performance`: one row per distinct
agent, followed by the final filter
`performance[performance['Main_Category'] != 'Inventory']`. -/
def calculate_billing_coordinator_performance (cdf : List CRec) : List PerfRow :=
  ((dedupFirst (cdf.map (fun r => r.row.agent))).map (perfRowFor cdf)).filter
    (fun pr => pr.mainCategory != "Inventory")

/-! ### `aggregate_by_issue` (transformation.py lines 366-444) -/

/-- Column list `expected_categories` of `aggregate_by_issue`, transcribed
verbatim (note `'Contract'`, which the classifier never produces, and the
absence of `'Other'` and `'Contrato'`). -/
def expected_categories : List String :=
  ["Contract", "Interface", "Inventory", "Pricing", "STPO", "Incomplete"]

/-- Value of one pivot cell after `fillna('0%')`: the rounded percentage of
the agent's rows in the category when the `(Biller, Category)` group exists,
otherwise 0. -/
def issuePct (cdf : List CRec) (a cat : String) : ℚ :=
  let cnt := count_category_occurrences cdf a cat
  if cnt = 0 then 0
  else round2 ((cnt : ℚ) / ((rowsOfAgent cdf a).length : ℚ) * 100)

structure IssueRow where
  biller : String
  contract : ℚ
  interface : ℚ
  inventory : ℚ
  pricing : ℚ
  stpo : ℚ
  incomplete : ℚ
  total : ℚ
deriving DecidableEq

/-- Python `aggregate_by_issue`: per-agent category percentages pivoted into
the six `expected_categories` columns, plus `calculate_total` (the rounded sum
of exactly those six columns — any `'Other'` or `'Contrato'` share is
dropped by the final column selection). -/
def aggregate_by_issue (cdf : List CRec) : List IssueRow :=
  (dedupFirst (cdf.map (fun r => r.row.agent))).map (fun a =>
    let pCon := issuePct cdf a "Contract"
    let pInt := issuePct cdf a "Interface"
    let pInv := issuePct cdf a "Inventory"
    let pPri := issuePct cdf a "Pricing"
    let pStp := issuePct cdf a "STPO"
    let pInc := issuePct cdf a "Incomplete"
    { biller := a
      contract := pCon
      interface := pInt
      inventory := pInv
      pricing := pPri
      stpo := pStp
      incomplete := pInc
      total := round2 (pCon + pInt + pInv + pPri + pStp + pInc) })

/-! ### `aggregate_by_inventory` (transformation.py lines 481-584)

The source groups by `['REGION', 'Plant', 'Base Unit of Measure', 'Task text',
agent]` with `'Delivery quantity': 'sum'`, then pivots with
`index=['Region', 'Plant', 'Biller']`, `columns='Unit'`,
`values='Quantity'`, `fill_value=0` and the *default* `aggfunc` of
`pivot_table`, which is `'mean'`.  The grouped entries that fall into one
pivot cell `(Region, Plant, Biller) × Unit` are in bijection with the distinct
task texts among that cell's rows, so the cell value is the mean over the
distinct task texts of the per-task quantity sums.  `groupby`/`pivot_table`
drop rows whose `'Plant'` key is `NaN`. -/

/-- The list `inventory_issues` of the source. -/
def inventory_issues : List String :=
  ["COMMAND - Ticket not Goods Issued", "JWS/APEX - Ticket not Goods Issued"]

/-- The fixed unit filter `['TON', 'TO', 'YD3']`. -/
def inventory_units : List String := ["TON", "TO", "YD3"]

/-- Python `inventory_processed`: restrict to the two inventory issues, then
to the three units. -/
def inventory_processed (df : List Rec) : List Rec :=
  (df.filter (fun r => inventory_issues.contains r.taskText)).filter
    (fun r => inventory_units.contains r.baseUnit)

/-- Rows of one pivot cell `(Region, Plant, Biller) × Unit`. -/
def invCellRows (df : List Rec) (region : String) (plant : Int) (biller unit : String) :
    List Rec :=
  (inventory_processed df).filter (fun r =>
    r.region == region && r.plant == some plant && r.agent == biller &&
      r.baseUnit == unit)

/-- Distinct task texts of one pivot cell — the grouped entries the pivot
aggregates over. -/
def invCellTasks (df : List Rec) (region : String) (plant : Int) (biller unit : String) :
    List String :=
  dedupFirst ((invCellRows df region plant biller unit).map (fun r => r.taskText))

/-- One pivot cell value: mean over the distinct task texts of the per-task
quantity sums; `fill_value=0` for an empty cell. -/
def invCell (df : List Rec) (region : String) (plant : Int) (biller unit : String) : ℚ :=
  let ts := invCellTasks df region plant biller unit
  if ts.isEmpty then 0
  else (ts.map (fun t =>
      (((invCellRows df region plant biller unit).filter
        (fun r => r.taskText == t)).map (fun r => r.deliveryQty)).sum)).sum /
    (ts.length : ℚ)

/-- Pivot index: the distinct `(Region, Plant, Biller)` triples of the
processed rows (rows with a `NaN` plant are dropped by the grouping). -/
def invPivotKeys (df : List Rec) : List (String × Int × String) :=
  dedupFirst ((inventory_processed df).filterMap (fun r =>
    r.plant.map (fun p => (r.region, p, r.agent))))

structure InvRow where
  region : String
  plant : Int
  biller : String
  ton : ℚ
  toUnit : ℚ
  yd3 : ℚ
  tonPct : ℚ
  toPct : ℚ
  yd3Pct : ℚ
deriving DecidableEq

/-- Python `aggregate_by_inventory`: pivot cells for the three units plus the
three share columns `(column / column_total * 100).round(2)`, or the scalar 0
when the unit's grand total is not positive. -/
def aggregate_by_inventory (df : List Rec) : List InvRow :=
  let keys := invPivotKeys df
  let tonTotal := (keys.map (fun k => invCell df k.1 k.2.1 k.2.2 "TON")).sum
  let toTotal := (keys.map (fun k => invCell df k.1 k.2.1 k.2.2 "TO")).sum
  let yd3Total := (keys.map (fun k => invCell df k.1 k.2.1 k.2.2 "YD3")).sum
  keys.map (fun k =>
    let vTon := invCell df k.1 k.2.1 k.2.2 "TON"
    let vTo := invCell df k.1 k.2.1 k.2.2 "TO"
    let vYd3 := invCell df k.1 k.2.1 k.2.2 "YD3"
    { region := k.1
      plant := k.2.1
      biller := k.2.2
      ton := vTon
      toUnit := vTo
      yd3 := vYd3
      tonPct := if 0 < tonTotal then round2 (vTon / tonTotal * 100) else 0
      toPct := if 0 < toTotal then round2 (vTo / toTotal * 100) else 0
      yd3Pct := if 0 < yd3Total then round2 (vYd3 / yd3Total * 100) else 0 })

/-! ### Column-presence behaviour of the aggregations and the report assembler
(transformation.py guards; output.py `export_final_report`)

This model tracks only which columns an input table has (for a table with at
least one data row).  Each aggregation either returns an empty table when its
explicit guard fires, raises `KeyError` at its first access to an unchecked
missing column, or computes a table.  The guard lists and the subsequent
column accesses are transcribed from the source in program order. -/

inductive SheetResult where
  | emptyTable : SheetResult
  | keyError : String → SheetResult
  | table : SheetResult
deriving DecidableEq

def colsHave (cols req : List String) : Bool := req.all (fun c => cols.contains c)

/-- The guard list `required_columns` of
`calculate_billing_coordinator_performance` — note that it omits `'ID'` and
`'Category'`, both read later. -/
def perf_required_columns : List String :=
  ["Actual (last) agent", "Plant", "Date", "OK - Actual End Date of Work Item",
   "Ticket", "Object Type", "Work item text"]

/-- Column behaviour of `calculate_billing_coordinator_performance`: guarded
return of an empty table, then `.agg({... 'ID': 'nunique' ...})` (raises on a
missing `'ID'` even for zero rows), then `work_df['Category']` inside
`get_category_principal`. -/
def perf_on_columns (cols : List String) : SheetResult :=
  if !colsHave cols perf_required_columns then .emptyTable
  else if !cols.contains "ID" then .keyError "ID"
  else if !cols.contains "Category" then .keyError "Category"
  else .table

/-- Column behaviour of `aggregate_by_plant`: only the agent column is
guarded; `groupby([agent, 'Plant', 'Category'])` and `.agg({'ID': 'count'})`
read three unchecked columns. -/
def plant_on_columns (cols : List String) : SheetResult :=
  if !cols.contains "Actual (last) agent" then .emptyTable
  else if !cols.contains "Plant" then .keyError "Plant"
  else if !cols.contains "Category" then .keyError "Category"
  else if !cols.contains "ID" then .keyError "ID"
  else .table

/-- Column behaviour of `aggregate_by_issue`: agent and `'Category'` are
guarded; `.agg({'ID': 'count'})` reads the unchecked `'ID'`. -/
def issue_on_columns (cols : List String) : SheetResult :=
  if !(cols.contains "Actual (last) agent" && cols.contains "Category") then .emptyTable
  else if !cols.contains "ID" then .keyError "ID"
  else .table

/-- Column behaviour of `aggregate_by_inventory`: its guard covers every
column it reads. -/
def inventory_on_columns (cols : List String) : SheetResult :=
  if !colsHave cols
      ["REGION", "Plant", "Base Unit of Measure", "Delivery quantity",
       "Actual (last) agent", "Task text"] then .emptyTable
  else .table

inductive ReportOutcome where
  | aborted : String → ReportOutcome
  | completed : ReportOutcome
deriving DecidableEq

/-- Column behaviour of `OutputManager.export_final_report`: it calls the
performance, plant and issue aggregations in that order (never the inventory
one — no `Inventory` sheet is written); an uncaught `KeyError` aborts the
run, otherwise the report is written, with a one-row placeholder sheet for
every aggregation that produced an empty table. -/
def export_final_report_on_columns (cols : List String) : ReportOutcome :=
  match perf_on_columns cols with
  | .keyError c => .aborted c
  | _ =>
    match plant_on_columns cols with
    | .keyError c => .aborted c
    | _ =>
      match issue_on_columns cols with
      | .keyError c => .aborted c
      | _ => .completed

/-! ### Proof-side predicate and concrete tables used by witnesses and
counterexamples -/

/-- No two adjacent whitespace characters (invariant of collapsed text). -/
def noDoubleWS : List Char → Bool
  | [] => true
  | [_] => true
  | a :: b :: rest => (!(pyIsSpace a && pyIsSpace b)) && noDoubleWS (b :: rest)

/-- One agent whose only record classifies as `Inventory`. -/
def exC1 : List Rec :=
  [⟨"A", some 1, some 0, some 1, 1, "COMMAND - Ticket not Goods Issued", "w", "R", "TON", 1⟩]

/-- One agent whose only record classifies as `Other`. -/
def exC4 : List Rec :=
  [⟨"A", some 1, some 0, some 0, 1, "zzz", "w", "R", "TON", 1⟩]

/-- One agent with one `Interface` and one `STPO` record. -/
def exC4w : List Rec :=
  [⟨"A", some 1, some 0, some 0, 1, "JWS/APEX - Interface Errors", "w", "R", "TON", 1⟩,
   ⟨"A", some 1, some 0, some 0, 2, "JWS/APEX - STPO Errors", "w", "R", "TON", 1⟩]

/-- One inventory group `(R, 1, A, TON)` holding both task-text variants. -/
def exC5 : List Rec :=
  [⟨"A", some 1, some 0, some 0, 1, "COMMAND - Ticket not Goods Issued", "w", "R", "TON", 10⟩,
   ⟨"A", some 1, some 0, some 0, 2, "JWS/APEX - Ticket not Goods Issued", "w", "R", "TON", 20⟩]

/-- One inventory group holding a single task-text variant. -/
def exC5w : List Rec :=
  [⟨"A", some 1, some 0, some 0, 1, "COMMAND - Ticket not Goods Issued", "w", "R", "TON", 10⟩]

/-- Three rows for the chunked phrase filter: one with the banned phrase (in
mixed case), one clean, one with a missing work-item cell. -/
def exC6 : List WRow :=
  [⟨some "Item Is Currently Being Processed by AGENT1", 1⟩,
   ⟨some "ok row", 2⟩,
   ⟨none, 3⟩]

/-- One agent with a 3-day record and a record with a missing end date. -/
def exC7 : List Rec :=
  [⟨"A", some 1, some 0, some 3, 1, "t", "w", "R", "TON", 1⟩,
   ⟨"A", some 1, some 5, none, 2, "t", "w", "R", "TON", 1⟩]

/-- Every column the report pipeline reads except `'ID'`. -/
def c8_failing_columns : List String :=
  ["Actual (last) agent", "Plant", "Date", "OK - Actual End Date of Work Item",
   "Ticket", "Object Type", "Work item text", "Category", "Task text",
   "REGION", "Base Unit of Measure", "Delivery quantity"]

/-- Incident table `{plants 1, 2, 3}` for the join witness. -/
def exC3_db : List DbRow := [⟨.num 1, 0⟩, ⟨.num 2, 1⟩, ⟨.num 3, 2⟩]

/-- Reference table `{plants 1, 2}` for the join witness. -/
def exC3_coords : List CoordRow := [⟨.num 1, "C1"⟩, ⟨.num 2, "C2"⟩]

/-! ## Theorems -/

/-! ### C8: column-presence error handling -/

/-- C8: the claim that a missing required column always degrades to an empty
table plus a placeholder sheet fails: with every column present except `'ID'`
(a column `calculate_billing_coordinator_performance` reads but does not
guard), the performance aggregation raises `KeyError('ID')` and the report
assembler aborts instead of emitting a placeholder. -/
theorem C8_missing_id_aborts_run :
    perf_on_columns c8_failing_columns = .keyError "ID" ∧
    export_final_report_on_columns c8_failing_columns = .aborted "ID" := by
  decide

/-! ### C10: the chunked filter on the empty table -/

/-- C10: `process_in_chunks` — hence `clean_data` — produces zero chunks on a
zero-row table and `pd.concat([])` raises, embedded as `none`; on any
non-empty table the pipeline returns a table.  The filter pipeline is total
exactly on non-empty inputs. -/
theorem C10_empty_table_raises :
    (∀ (csz : Nat) (f : List WRow → List WRow), process_in_chunks csz f [] = none) ∧
    clean_data ([] : List WRow) = none ∧
    ∀ df : List WRow, (clean_data df).isSome = !df.isEmpty := by
  refine ⟨fun csz f => rfl, rfl, fun df => ?_⟩
  cases df with
  | nil => rfl
  | cons x xs =>
    simp [clean_data, process_in_chunks, chunkList, chunksGo]

/-! ### C2: the classifier -/

theorem lookup_mem_snd (l : List (String × String)) (s c : String)
    (h : l.lookup s = some c) : c ∈ l.map Prod.snd := by
  induction l with
  | nil => simp [List.lookup] at h
  | cons p t ih =>
    rw [List.lookup] at h
    cases hs : s == p.1 with
    | true =>
      rw [hs] at h
      simp only at h
      cases h
      simp
    | false =>
      rw [hs] at h
      simp only at h
      simpa using Or.inr (ih h)

/-- C2 (counterexample): the classifier maps the contract vocabulary to the
Spanish `'Contrato'`, which is outside the claimed closed category set
`{Contract, Pricing, Interface, Incomplete, STPO, Inventory, Other}`. -/
theorem C2_contrato_outside_claimed_set :
    categorizeTask "Error Shipto related to Contract" = "Contrato" ∧
    "Contrato" ∉
      ["Contract", "Pricing", "Interface", "Incomplete", "STPO", "Inventory", "Other"] := by
  decide

/-- C2 (amended): `categorize_incidents` assigns exactly one category from the
closed set `{Contrato, Pricing, Interface, Incomplete, STPO, Inventory,
Other}`; every literal string of `TASK_TO_CATEGORY` maps to its declared
category by exact string match, and every string outside the vocabulary maps
to `'Other'`.  Classification is a pure function of the task text. -/
theorem C2_classifier_closed_set :
    (∀ s : String,
      categorizeTask s ∈
        ["Contrato", "Pricing", "Interface", "Incomplete", "STPO", "Inventory", "Other"]) ∧
    (∀ p ∈ TASK_TO_CATEGORY, categorizeTask p.1 = p.2) ∧
    (∀ s : String, TASK_TO_CATEGORY.lookup s = none → categorizeTask s = "Other") := by
  refine ⟨fun s => ?_, by decide, fun s h => by simp [categorizeTask, h]⟩
  cases h : TASK_TO_CATEGORY.lookup s with
  | none => simp [categorizeTask, h]
  | some c =>
    have hc : c ∈ TASK_TO_CATEGORY.map Prod.snd := lookup_mem_snd _ _ _ h
    have hsub : ∀ x ∈ TASK_TO_CATEGORY.map Prod.snd,
        x ∈ ["Contrato", "Pricing", "Interface", "Incomplete", "STPO", "Inventory", "Other"] := by
      decide
    simpa [categorizeTask, h] using hsub c hc

/-- C2 (witness): a vocabulary string and an unseen string, classified by
`C2_classifier_closed_set`. -/
theorem C2_classifier_witness :
    categorizeTask "JWS/APEX - STPO Errors" = "STPO" ∧
    categorizeTask "unseen task text" = "Other" :=
  ⟨C2_classifier_closed_set.2.1 ("JWS/APEX - STPO Errors", "STPO") (by decide),
   C2_classifier_closed_set.2.2 "unseen task text" (by decide)⟩

/-! ### C3: the inner join -/

/-- C3 (counterexample): a non-numeric plant coerces to the null sentinel, yet
it does match a reference row whose plant is also non-numeric — pandas
`merge` matches `NaN` keys against each other — so the claim that a null key
"never matches any row" fails, as does the claim that every output pair
shares a non-null plant value. -/
theorem C3_null_keys_match :
    to_numeric (PlantCell.str "unknown-plant") = none ∧
    (merge_with_billing_coordinators
      [⟨PlantCell.str "unknown-plant", 0⟩]
      [⟨PlantCell.str "other-text", "C"⟩]).length = 1 := by
  decide

/-- C3 (amended): the join output is exactly the pairs of a coerced incident
row and a coerced reference row with equal `'Plant'` keys — where the null
sentinel also matches the null sentinel — and for a non-empty incident table
the reported match rate equals post-join row count over pre-join row count
times 100. -/
theorem C3_inner_join_exact :
    ∀ (db : List DbRow) (coords : List CoordRow),
      (∀ p : DbRowN × CoordRowN,
        p ∈ merge_with_billing_coordinators db coords ↔
          p.1 ∈ db.map coerceDb ∧ p.2 ∈ coords.map coerceCoord ∧
            p.1.plant = p.2.plant) ∧
      (db ≠ [] →
        merge_match_rate db coords =
          some (((merge_with_billing_coordinators db coords).length : ℚ) /
            (db.length : ℚ) * 100)) := by
  intro db coords
  constructor
  · intro p
    cases p with
    | mk r c =>
      simp only [merge_with_billing_coordinators, List.mem_flatMap, List.mem_map,
        List.mem_filter, beq_iff_eq]
      constructor
      · rintro ⟨r', hr', c', ⟨hc', hpl⟩, heq⟩
        cases heq
        exact ⟨hr', hc', hpl.symm⟩
      · rintro ⟨hr, hc, hpl⟩
        exact ⟨r, hr, c, ⟨hc, hpl.symm⟩, rfl⟩
  · intro hne
    rw [merge_match_rate, if_neg]
    simpa using hne

/-- C3 (witness): the spec's join example — plants `{1, 2, 3}` against
reference plants `{1, 2}` — via `C3_inner_join_exact`: match rate
`2 / 3 × 100`. -/
theorem C3_join_witness :
    merge_match_rate exC3_db exC3_coords = some (200 / 3) := by
  have h := (C3_inner_join_exact exC3_db exC3_coords).2 (by decide)
  rw [h, show (merge_with_billing_coordinators exC3_db exC3_coords).length = 2 from by decide]
  norm_num [exC3_db]

/-! ### C6: chunking does not change the surviving rows -/

theorem chunksGo_flatten_filter (p : WRow → Bool) (csz : Nat) (hc : 0 < csz) :
    ∀ (fuel : Nat) (l : List WRow), l.length ≤ fuel →
      ((chunksGo csz fuel l).map (List.filter p)).flatten = l.filter p := by
  intro fuel
  induction fuel with
  | zero =>
    intro l hl
    have : l = [] := List.eq_nil_of_length_eq_zero (Nat.le_zero.mp hl)
    subst this
    rfl
  | succ fuel ih =>
    intro l hl
    cases l with
    | nil => rfl
    | cons x xs =>
      rw [chunksGo]
      rw [if_neg (by simp)]
      rw [List.map_cons, List.flatten_cons]
      rw [ih ((x :: xs).drop csz)
        (by simp only [List.length_drop, List.length_cons] at hl ⊢; omega)]
      rw [← List.filter_append, List.take_append_drop]

/-- C6 (amended): for every non-empty input table and every positive chunk
size, running the phrase filter through `ChunkProcessor.process_in_chunks`
keeps exactly the rows a single full-table `filter_batchman_vectorized` pass
keeps: a row survives iff its work-item text, normalised (invisible
whitespace replaced, whitespace collapsed, ends stripped, lowercased), does
not contain `FILTER_TEXT`.  Batch boundaries never affect the surviving set;
the sole exception to the claim as stated is the zero-row table, on which the
chunked pipeline raises (claim C10). -/
theorem C6_chunking_preserves_filter :
    ∀ (df : List WRow) (csz : Nat), 0 < csz → df ≠ [] →
      process_in_chunks csz filter_batchman_vectorized df =
        some (filter_batchman_vectorized df) ∧
      ∀ r : WRow, (r ∈ filter_batchman_vectorized df ↔ r ∈ df ∧ fbKeep r = true) := by
  intro df csz hc hne
  constructor
  · rw [process_in_chunks]
    have hnil : chunkList csz df ≠ [] := by
      cases df with
      | nil => exact absurd rfl hne
      | cons x xs =>
        rw [chunkList, List.length_cons, chunksGo, if_neg (by simp)]
        simp
    rw [if_neg (by simpa using hnil)]
    have := chunksGo_flatten_filter fbKeep csz hc df.length df le_rfl
    rw [chunkList]
    simpa [filter_batchman_vectorized] using congrArg some this
  · intro r
    simp [filter_batchman_vectorized, List.mem_filter]

/-- C6 (counterexample): on the zero-row table the chunked pipeline raises
(`pd.concat([])`, embedded as `none`) while the single full-table pass
returns the empty table, so the claimed equivalence fails for the empty
input. -/
theorem C6_empty_table_not_equivalent :
    process_in_chunks CHUNK_SIZE filter_batchman_vectorized ([] : List WRow) ≠
      some (filter_batchman_vectorized []) := by
  decide

set_option maxRecDepth 4000 in
/-- C6 (witness): `C6_chunking_preserves_filter` on a concrete three-row
table with chunk size 2 (a chunk boundary splits the table): the phrase row
is dropped — despite mixed case — and the two clean rows survive. -/
theorem C6_chunking_witness :
    process_in_chunks 2 filter_batchman_vectorized exC6 =
      some [⟨some "ok row", 2⟩, ⟨none, 3⟩] := by
  have h := (C6_chunking_preserves_filter exC6 2 (by decide) (by decide)).1
  rw [h]
  decide

/-! ### C1 and C7: the performance table -/

theorem mem_dedupAux {α : Type} [DecidableEq α] (l : List α) :
    ∀ (seen : List α) (a : α), a ∈ dedupAux seen l ↔ a ∈ l ∧ a ∉ seen := by
  induction l with
  | nil => intro seen a; simp [dedupAux]
  | cons x xs ih =>
    intro seen a
    rw [dedupAux]
    by_cases hx : seen.contains x
    · rw [if_pos hx]
      rw [ih]
      constructor
      · rintro ⟨h1, h2⟩
        exact ⟨List.mem_cons_of_mem _ h1, h2⟩
      · rintro ⟨h1, h2⟩
        rcases List.mem_cons.mp h1 with h1 | h1
        · subst h1
          exact absurd (List.elem_iff.mp hx) h2
        · exact ⟨h1, h2⟩
    · rw [if_neg hx]
      constructor
      · intro h
        rcases List.mem_cons.mp h with h | h
        · subst h
          exact ⟨List.mem_cons_self _ _, fun hmem => hx (List.elem_iff.mpr hmem)⟩
        · have := (ih (x :: seen) a).mp h
          exact ⟨List.mem_cons_of_mem _ this.1, fun hs => this.2 (List.mem_cons_of_mem _ hs)⟩
      · rintro ⟨h1, h2⟩
        by_cases hax : a = x
        · subst hax
          exact List.mem_cons_self _ _
        · rcases List.mem_cons.mp h1 with h | h
          · exact absurd h hax
          · refine List.mem_cons_of_mem _ ((ih (x :: seen) a).mpr ⟨h, ?_⟩)
            intro hs
            rcases List.mem_cons.mp hs with hs | hs
            · exact hax hs
            · exact h2 hs

theorem mem_dedupFirst {α : Type} [DecidableEq α] (l : List α) (a : α) :
    a ∈ dedupFirst l ↔ a ∈ l := by
  rw [dedupFirst, mem_dedupAux]
  simp

theorem foldl_choice_mem (L : List String) :
    ∀ (l : List String) (acc : String), acc ∈ L → (∀ x ∈ l, x ∈ L) →
      l.foldl (fun a x => if L.count x > L.count a then x else a) acc ∈ L := by
  intro l
  induction l with
  | nil => intro acc hacc _; exact hacc
  | cons y ys ih =>
    intro acc hacc hsub
    rw [List.foldl_cons]
    by_cases hy : L.count y > L.count acc
    · rw [if_pos hy]
      exact ih y (hsub y (List.mem_cons_self _ _)) fun x hx =>
        hsub x (List.mem_cons_of_mem _ hx)
    · rw [if_neg hy]
      exact ih acc hacc fun x hx => hsub x (List.mem_cons_of_mem _ hx)

theorem firstMode_mem (l : List String) (h : l ≠ []) : firstMode l ∈ l := by
  cases l with
  | nil => exact absurd rfl h
  | cons x xs =>
    rw [firstMode]
    exact foldl_choice_mem _ _ _ (by simp) fun y hy => hy

/-- The dominant category is computed from a list with every `'Inventory'`
element removed, so it can never be `'Inventory'` — the final
`performance['Main_Category'] != 'Inventory'` filter of
`calculate_billing_coordinator_performance` is vacuous. -/
theorem get_category_principal_ne_inventory (cdf : List CRec) (a : String) :
    get_category_principal cdf a ≠ "Inventory" := by
  rw [get_category_principal]
  set cats := ((rowsOfAgent cdf a).map (fun r => r.category)).filter
    (fun c => c != "Inventory") with hcats
  by_cases hemp : cats.isEmpty
  · rw [if_pos hemp]
    decide
  · rw [if_neg hemp]
    intro hmode
    have hmem : firstMode cats ∈ cats :=
      firstMode_mem cats (by simpa [List.isEmpty_iff] using hemp)
    rw [hcats] at hmem
    have := (List.mem_filter.mp hmem).2
    rw [hmode] at this
    simp at this

/-- Every agent of the input table owns a row of the performance output: the
final filter never drops a row. -/
theorem perfRow_mem (cdf : List CRec) (a : String)
    (h : a ∈ cdf.map (fun r => r.row.agent)) :
    perfRowFor cdf a ∈ calculate_billing_coordinator_performance cdf := by
  rw [calculate_billing_coordinator_performance]
  refine List.mem_filter.mpr ⟨List.mem_map_of_mem _ ((mem_dedupFirst _ _).mpr h), ?_⟩
  have : (perfRowFor cdf a).mainCategory = get_category_principal cdf a := rfl
  simpa [this] using get_category_principal_ne_inventory cdf a

/-- The `'Category'` column appended by `categorize_incidents` leaves the
agent column untouched. -/
theorem categorize_incidents_agents (df : List Rec) :
    (categorize_incidents df).map (fun r => r.row.agent) = df.map Rec.agent := by
  rw [categorize_incidents, List.map_map]
  rfl

/-- C1 (counterexample): an agent all of whose records classify as
`'Inventory'` is *not* absent from the Performance output — it appears with
`Main_Category = 'No Category'`, because the dominant category is computed
after dropping `'Inventory'` rows and therefore never resolves to
`'Inventory'`, making the final filter a no-op. -/
theorem C1_inventory_only_agent_present :
    ∃ pr ∈ calculate_billing_coordinator_performance (categorize_incidents exC1),
      pr.billingCoordinator = "A" ∧ pr.mainCategory = "No Category" := by
  decide

/-- C1 (amended): the Performance output contains a row for *every* agent of
the input; the final `'Inventory'` filter drops nothing (the dominant
category, computed after excluding `'Inventory'` rows, never resolves to
`'Inventory'`), and an agent all of whose records are categorized
`'Inventory'` appears with the sentinel `Main_Category = 'No Category'`. -/
theorem C1_no_agent_dropped :
    ∀ (df : List Rec) (a : String), a ∈ df.map Rec.agent →
      ∃ pr ∈ calculate_billing_coordinator_performance (categorize_incidents df),
        pr.billingCoordinator = a ∧
        pr.mainCategory ≠ "Inventory" ∧
        ((∀ r ∈ rowsOfAgent (categorize_incidents df) a, r.category = "Inventory") →
          pr.mainCategory = "No Category") := by
  intro df a ha
  refine ⟨perfRowFor (categorize_incidents df) a,
    perfRow_mem _ _ (by rw [categorize_incidents_agents]; exact ha), rfl, ?_, ?_⟩
  · exact get_category_principal_ne_inventory _ _
  · intro hinv
    show get_category_principal (categorize_incidents df) a = "No Category"
    rw [get_category_principal]
    rw [if_pos]
    rw [List.isEmpty_iff, List.filter_eq_nil_iff]
    intro c hc
    rcases List.mem_map.mp hc with ⟨r, hr, rfl⟩
    simp [hinv r hr]

/-- C1 (witness): `C1_no_agent_dropped` applied to the one-agent,
Inventory-only table `exC1`. -/
theorem C1_no_agent_dropped_witness :
    ∃ pr ∈ calculate_billing_coordinator_performance (categorize_incidents exC1),
      pr.billingCoordinator = "A" ∧ pr.mainCategory = "No Category" ∧
        pr.mainCategory ≠ "Inventory" := by
  obtain ⟨pr, hm, hco, hni, hnc⟩ := C1_no_agent_dropped exC1 "A" (by decide)
  exact ⟨pr, hm, hco, hnc (by decide), hni⟩

/-- C7: per-record days-spent is the whole-day difference of the converted
end and start dates, with an unparsable (`NaT`) date or a negative difference
floored to 0 and the record kept; the per-agent `Average_Days_Spent` of the
performance output is the arithmetic mean of `diasDedicados` over all the
agent's records. -/
theorem C7_average_days_spent :
    (∀ r : CRec, diasDedicados r =
      match r.row.date, r.row.endDate with
      | some d, some e => max (e - d) 0
      | _, _ => 0) ∧
    ∀ (df : List Rec) (a : String), a ∈ df.map Rec.agent →
      ∃ pr ∈ calculate_billing_coordinator_performance (categorize_incidents df),
        pr.billingCoordinator = a ∧
        pr.averageDaysSpent =
          (((rowsOfAgent (categorize_incidents df) a).map diasDedicados).sum : ℤ) /
            ((rowsOfAgent (categorize_incidents df) a).length : ℚ) := by
  refine ⟨fun r => rfl, fun df a ha => ?_⟩
  exact ⟨perfRowFor (categorize_incidents df) a,
    perfRow_mem _ _ (by rw [categorize_incidents_agents]; exact ha), rfl, rfl⟩

/-- C7 (witness): `C7_average_days_spent` on the table `exC7`: agent `A` has
one 3-day record and one record with a missing end date (floored to 0), and
the performance row reports `Average_Days_Spent = 1.5`. -/
theorem C7_average_days_spent_witness :
    ∃ pr ∈ calculate_billing_coordinator_performance (categorize_incidents exC7),
      pr.billingCoordinator = "A" ∧ pr.averageDaysSpent = 3 / 2 := by
  obtain ⟨pr, hm, hco, havg⟩ := C7_average_days_spent.2 exC7 "A" (by decide)
  refine ⟨pr, hm, hco, ?_⟩
  rw [havg]
  rw [show rowsOfAgent (categorize_incidents exC7) "A" = categorize_incidents exC7 from by decide]
  norm_num [exC7, categorize_incidents, diasDedicados, categorizeTask]

/-! ### C9: the text normalizer -/

theorem az_not_digit (c : Char) (h : isLowerAZ c = true) : isDigitCh c = false := by
  simp only [isLowerAZ, Bool.and_eq_true, decide_eq_true_eq] at h
  rw [Bool.eq_false_iff]
  intro hd
  simp only [isDigitCh, Bool.and_eq_true, decide_eq_true_eq] at hd
  exact absurd (le_trans h.1 hd.2) (by decide)

theorem ws_not_az (c : Char) (h : pyIsSpace c = true) : isLowerAZ c = false := by
  rw [Bool.eq_false_iff]
  intro haz
  simp only [isLowerAZ, Bool.and_eq_true, decide_eq_true_eq] at haz
  simp only [pyIsSpace, Bool.or_eq_true, beq_iff_eq, Bool.and_eq_true,
    decide_eq_true_eq, or_assoc] at h
  rcases h with h|h|h|h|h|h|h|h|h|h|h|h|h|⟨h1, _⟩|h|h|h|h|h
  all_goals try (subst h; exact absurd haz (by decide))
  exact absurd (le_trans h1 haz.2) (by decide)

theorem ws_not_digit (c : Char) (h : pyIsSpace c = true) : isDigitCh c = false := by
  rw [Bool.eq_false_iff]
  intro hd
  simp only [isDigitCh, Bool.and_eq_true, decide_eq_true_eq] at hd
  simp only [pyIsSpace, Bool.or_eq_true, beq_iff_eq, Bool.and_eq_true,
    decide_eq_true_eq, or_assoc] at h
  rcases h with h|h|h|h|h|h|h|h|h|h|h|h|h|⟨h1, _⟩|h|h|h|h|h
  all_goals try (subst h; exact absurd hd (by decide))
  exact absurd (le_trans h1 hd.2) (by decide)

theorem toLower_fix (c : Char) (h : (isLowerAZ c || c == ' ') = true) :
    Char.toLower c = c := by
  have hcond : ¬(65 ≤ c.toNat ∧ c.toNat ≤ 90) := by
    have h' : isLowerAZ c = true ∨ c = ' ' := by simpa using h
    rcases h' with haz | hsp
    · simp only [isLowerAZ, Bool.and_eq_true, decide_eq_true_eq] at haz
      have h97 : (97 : Nat) ≤ c.toNat := UInt32.le_toNat_of_le (by decide) (Char.le_def.mp haz.1)
      omega
    · have hc : c = ' ' := by simpa using hsp
      subst hc
      decide
  show (if 65 ≤ c.toNat ∧ c.toNat ≤ 90 then Char.ofNat (c.toNat + 32) else c) = c
  rw [if_neg hcond]

theorem noDoubleWS_tail (a : Char) (l : List Char) (h : noDoubleWS (a :: l) = true) :
    noDoubleWS l = true := by
  cases l with
  | nil => rfl
  | cons b r =>
    rw [noDoubleWS, Bool.and_eq_true] at h
    exact h.2

theorem noDoubleWS_cons (c : Char) (l : List Char)
    (hhead : ∀ y, l.head? = some y → ¬(pyIsSpace c = true ∧ pyIsSpace y = true))
    (hl : noDoubleWS l = true) : noDoubleWS (c :: l) = true := by
  cases l with
  | nil => rfl
  | cons b r =>
    rw [noDoubleWS, Bool.and_eq_true]
    refine ⟨?_, hl⟩
    have hb := hhead b rfl
    by_cases h1 : pyIsSpace c = true
    · by_cases h2 : pyIsSpace b = true
      · exact absurd ⟨h1, h2⟩ hb
      · simp [Bool.eq_false_iff.mpr h2]
    · simp [Bool.eq_false_iff.mpr h1]

theorem collapseWS_cons_not_ws (b : Char) (t : List Char) (hb : pyIsSpace b = false) :
    ∃ X, collapseWS (b :: t) = b :: X := by
  cases t with
  | nil =>
    refine ⟨[], ?_⟩
    rw [collapseWS, if_neg (by simp [hb])]
  | cons c r =>
    refine ⟨collapseWS (c :: r), ?_⟩
    rw [collapseWS, if_neg (by simp [hb]), if_neg (by simp [hb])]

theorem collapseWS_mem : ∀ (l : List Char), ∀ c ∈ collapseWS l, c = ' ' ∨ c ∈ l
  | [] => by simp [collapseWS]
  | [a] => by
    intro c hc
    by_cases hwa : pyIsSpace a = true
    · rw [collapseWS, if_pos hwa] at hc
      left
      simpa using hc
    · rw [collapseWS, if_neg hwa] at hc
      right
      simpa using hc
  | a :: b :: rest => by
    intro c hc
    by_cases hab : (pyIsSpace a && pyIsSpace b) = true
    · rw [collapseWS, if_pos hab] at hc
      rcases collapseWS_mem (b :: rest) c hc with h | h
      · exact Or.inl h
      · exact Or.inr (List.mem_cons_of_mem _ h)
    · rw [collapseWS, if_neg hab] at hc
      rcases List.mem_cons.mp hc with h | h
      · subst h
        by_cases hwa : pyIsSpace a = true
        · rw [if_pos hwa]
          exact Or.inl rfl
        · rw [if_neg hwa]
          exact Or.inr (List.mem_cons_self _ _)
      · rcases collapseWS_mem (b :: rest) c h with h' | h'
        · exact Or.inl h'
        · exact Or.inr (List.mem_cons_of_mem _ h')

theorem collapseWS_ws_space :
    ∀ (l : List Char), ∀ c ∈ collapseWS l, pyIsSpace c = true → c = ' '
  | [] => by simp [collapseWS]
  | [a] => by
    intro c hc hw
    by_cases hwa : pyIsSpace a = true
    · rw [collapseWS, if_pos hwa] at hc
      simpa using hc
    · rw [collapseWS, if_neg hwa] at hc
      have : c = a := by simpa using hc
      subst this
      exact absurd hw hwa
  | a :: b :: rest => by
    intro c hc hw
    by_cases hab : (pyIsSpace a && pyIsSpace b) = true
    · rw [collapseWS, if_pos hab] at hc
      exact collapseWS_ws_space (b :: rest) c hc hw
    · rw [collapseWS, if_neg hab] at hc
      rcases List.mem_cons.mp hc with h | h
      · subst h
        by_cases hwa : pyIsSpace a = true
        · rw [if_pos hwa]
        · rw [if_neg hwa] at hw ⊢
          exact absurd hw hwa
      · exact collapseWS_ws_space (b :: rest) c h hw

theorem collapseWS_noDouble : ∀ (l : List Char), noDoubleWS (collapseWS l) = true
  | [] => rfl
  | [a] => by
    by_cases hwa : pyIsSpace a = true
    · rw [collapseWS, if_pos hwa]
      rfl
    · rw [collapseWS, if_neg hwa]
      rfl
  | a :: b :: rest => by
    by_cases hab : (pyIsSpace a && pyIsSpace b) = true
    · rw [collapseWS, if_pos hab]
      exact collapseWS_noDouble (b :: rest)
    · rw [collapseWS, if_neg hab]
      apply noDoubleWS_cons
      · intro y hy hcy
        by_cases hwa : pyIsSpace a = true
        · have hwb : pyIsSpace b = false := by
            cases hb : pyIsSpace b with
            | false => rfl
            | true => exact absurd (by rw [hwa, hb]; rfl) hab
          obtain ⟨X, hX⟩ := collapseWS_cons_not_ws b rest hwb
          rw [hX, List.head?_cons] at hy
          have hyb : y = b := by simpa using hy.symm
          subst hyb
          exact absurd hcy.2 (by simp [hwb])
        · rw [if_neg hwa] at hcy
          exact absurd hcy.1 hwa
      · exact collapseWS_noDouble (b :: rest)

theorem collapseWS_fix :
    ∀ (l : List Char), noDoubleWS l = true → (∀ c ∈ l, pyIsSpace c = true → c = ' ') →
      collapseWS l = l
  | [] => by
    intro _ _
    rfl
  | [a] => by
    intro _ hws
    by_cases hwa : pyIsSpace a = true
    · rw [collapseWS, if_pos hwa, hws a (List.mem_cons_self _ _) hwa]
    · rw [collapseWS, if_neg hwa]
  | a :: b :: rest => by
    intro hnd hws
    have h1 : (pyIsSpace a && pyIsSpace b) = false := by
      cases hh : (pyIsSpace a && pyIsSpace b) with
      | false => rfl
      | true =>
        rw [noDoubleWS, hh] at hnd
        simp at hnd
    rw [collapseWS, if_neg (by simp [h1])]
    have htl : collapseWS (b :: rest) = b :: rest :=
      collapseWS_fix (b :: rest) (noDoubleWS_tail _ _ hnd)
        (fun c hc hw => hws c (List.mem_cons_of_mem _ hc) hw)
    rw [htl]
    by_cases hwa : pyIsSpace a = true
    · rw [if_pos hwa, hws a (List.mem_cons_self _ _) hwa]
    · rw [if_neg hwa]

theorem dropTrailingWS_mem : ∀ (l : List Char), ∀ c ∈ dropTrailingWS l, c ∈ l
  | [] => by simp [dropTrailingWS]
  | a :: rest => by
    intro c hc
    simp only [dropTrailingWS] at hc
    by_cases hr : (dropTrailingWS rest).isEmpty
    · rw [if_pos hr] at hc
      by_cases hwa : pyIsSpace a = true
      · rw [if_pos hwa] at hc
        simp at hc
      · rw [if_neg hwa] at hc
        simp only [List.mem_singleton] at hc
        subst hc
        exact List.mem_cons_self _ _
    · rw [if_neg hr] at hc
      rcases List.mem_cons.mp hc with h | h
      · subst h
        exact List.mem_cons_self _ _
      · exact List.mem_cons_of_mem _ (dropTrailingWS_mem rest c h)

theorem dropTrailingWS_head :
    ∀ (l : List Char), dropTrailingWS l ≠ [] → (dropTrailingWS l).head? = l.head?
  | [] => fun h => absurd rfl h
  | a :: rest => by
    intro h
    simp only [dropTrailingWS] at h ⊢
    by_cases hr : (dropTrailingWS rest).isEmpty
    · rw [if_pos hr] at h ⊢
      by_cases hwa : pyIsSpace a = true
      · rw [if_pos hwa] at h
        exact absurd rfl h
      · rw [if_neg hwa]
        rfl
    · rw [if_neg hr]
      rfl

theorem dropTrailingWS_getLast_not_ws :
    ∀ (l : List Char) (c : Char), (dropTrailingWS l).getLast? = some c →
      pyIsSpace c = false
  | [] => by simp [dropTrailingWS]
  | a :: rest => by
    intro c hc
    simp only [dropTrailingWS] at hc
    by_cases hr : (dropTrailingWS rest).isEmpty
    · rw [if_pos hr] at hc
      by_cases hwa : pyIsSpace a = true
      · rw [if_pos hwa] at hc
        simp at hc
      · rw [if_neg hwa] at hc
        have : a = c := by simpa using hc
        subst this
        exact Bool.eq_false_iff.mpr hwa
    · rw [if_neg hr] at hc
      rcases hx : dropTrailingWS rest with _ | ⟨x, xs⟩
      · rw [hx] at hr
        exact absurd rfl hr
      · rw [hx, List.getLast?_cons_cons] at hc
        rw [← hx] at hc
        exact dropTrailingWS_getLast_not_ws rest c hc

theorem dropTrailingWS_noDouble :
    ∀ (l : List Char), noDoubleWS l = true → noDoubleWS (dropTrailingWS l) = true
  | [] => fun h => h
  | a :: rest => by
    intro h
    have htail : noDoubleWS rest = true := noDoubleWS_tail a rest h
    have ih := dropTrailingWS_noDouble rest htail
    simp only [dropTrailingWS]
    by_cases hr : (dropTrailingWS rest).isEmpty
    · rw [if_pos hr]
      by_cases hwa : pyIsSpace a = true
      · rw [if_pos hwa]
        rfl
      · rw [if_neg hwa]
        rfl
    · rw [if_neg hr]
      apply noDoubleWS_cons
      · intro y hy hcy
        have hne : dropTrailingWS rest ≠ [] := by simpa [List.isEmpty_iff] using hr
        rw [dropTrailingWS_head rest hne] at hy
        cases rest with
        | nil => simp at hy
        | cons b t =>
          rw [List.head?_cons] at hy
          have hyb : y = b := by simpa using hy.symm
          subst hyb
          rw [noDoubleWS, Bool.and_eq_true] at h
          have h1 := h.1
          rw [hcy.1, hcy.2] at h1
          simp at h1
      · exact ih

theorem dropTrailingWS_fix :
    ∀ (l : List Char), (∀ c, l.getLast? = some c → pyIsSpace c = false) →
      dropTrailingWS l = l
  | [] => fun _ => rfl
  | [a] => by
    intro h
    have ha : pyIsSpace a = false := h a (by simp)
    simp only [dropTrailingWS]
    simp [ha]
  | a :: b :: rest => by
    intro h
    have hbl : dropTrailingWS (b :: rest) = b :: rest :=
      dropTrailingWS_fix (b :: rest) (fun c hc => h c (by rw [List.getLast?_cons_cons]; exact hc))
    have hstep : dropTrailingWS (a :: b :: rest) =
        if (dropTrailingWS (b :: rest)).isEmpty then (if pyIsSpace a = true then [] else [a])
        else a :: dropTrailingWS (b :: rest) := rfl
    rw [hstep, hbl]
    simp

theorem dropWhile_mem {α : Type} (p : α → Bool) :
    ∀ (l : List α) (c : α), c ∈ l.dropWhile p → c ∈ l := by
  intro l
  induction l with
  | nil => simp
  | cons a t ih =>
    intro c hc
    rw [List.dropWhile_cons] at hc
    by_cases ha : p a = true
    · rw [if_pos ha] at hc
      exact List.mem_cons_of_mem _ (ih c hc)
    · rw [if_neg ha] at hc
      exact hc

theorem dropWhile_head_not {α : Type} (p : α → Bool) :
    ∀ (l : List α) (c : α), (l.dropWhile p).head? = some c → p c = false := by
  intro l
  induction l with
  | nil => simp
  | cons a t ih =>
    intro c hc
    rw [List.dropWhile_cons] at hc
    by_cases ha : p a = true
    · rw [if_pos ha] at hc
      exact ih c hc
    · rw [if_neg ha, List.head?_cons] at hc
      have : c = a := by simpa using hc.symm
      subst this
      exact Bool.eq_false_iff.mpr ha

theorem dropWhile_noDouble :
    ∀ (l : List Char), noDoubleWS l = true → noDoubleWS (l.dropWhile pyIsSpace) = true := by
  intro l
  induction l with
  | nil => exact fun h => h
  | cons a t ih =>
    intro h
    rw [List.dropWhile_cons]
    by_cases ha : pyIsSpace a = true
    · rw [if_pos ha]
      exact ih (noDoubleWS_tail a t h)
    · rw [if_neg ha]
      exact h

theorem trimWS_mem (l : List Char) (c : Char) (hc : c ∈ trimWS l) : c ∈ l := by
  rw [trimWS] at hc
  exact dropWhile_mem pyIsSpace l c (dropTrailingWS_mem _ c hc)

theorem trimWS_head_not_ws (l : List Char) (c : Char)
    (hc : (trimWS l).head? = some c) : pyIsSpace c = false := by
  rw [trimWS] at hc
  have hne : dropTrailingWS (l.dropWhile pyIsSpace) ≠ [] := by
    intro h0
    rw [h0] at hc
    simp at hc
  rw [dropTrailingWS_head _ hne] at hc
  exact dropWhile_head_not pyIsSpace l c hc

theorem trimWS_getLast_not_ws (l : List Char) (c : Char)
    (hc : (trimWS l).getLast? = some c) : pyIsSpace c = false :=
  dropTrailingWS_getLast_not_ws _ c hc

theorem trimWS_noDouble (l : List Char) (h : noDoubleWS l = true) :
    noDoubleWS (trimWS l) = true :=
  dropTrailingWS_noDouble _ (dropWhile_noDouble l h)

theorem trimWS_fix (l : List Char)
    (hhead : ∀ c, l.head? = some c → pyIsSpace c = false)
    (hlast : ∀ c, l.getLast? = some c → pyIsSpace c = false) : trimWS l = l := by
  rw [trimWS]
  have h1 : l.dropWhile pyIsSpace = l := by
    cases l with
    | nil => rfl
    | cons a t =>
      rw [List.dropWhile_cons, if_neg]
      rw [hhead a rfl]
      simp
  rw [h1]
  exact dropTrailingWS_fix l hlast

theorem remAux_mem :
    ∀ (l buf : List Char) (c : Char), c ∈ remAux buf l → c ∈ buf ∨ c ∈ l
  | [], buf, c => by
    intro hc
    rw [remAux, emitTok] at hc
    by_cases hd : buf.any isDigitCh
    · rw [if_pos hd] at hc
      simp at hc
    · rw [if_neg hd] at hc
      exact Or.inl hc
  | d :: rest, buf, c => by
    intro hc
    rw [remAux] at hc
    by_cases hwd : pyIsSpace d = true
    · rw [if_pos hwd] at hc
      rcases List.mem_append.mp hc with h | h
      · rw [emitTok] at h
        by_cases hd : buf.any isDigitCh
        · rw [if_pos hd] at h
          simp at h
        · rw [if_neg hd] at h
          exact Or.inl h
      · rcases List.mem_cons.mp h with h' | h'
        · subst h'
          exact Or.inr (List.mem_cons_self _ _)
        · rcases remAux_mem rest [] c h' with h'' | h''
          · simp at h''
          · exact Or.inr (List.mem_cons_of_mem _ h'')
    · rw [if_neg hwd] at hc
      rcases remAux_mem rest (buf ++ [d]) c hc with h | h
      · rcases List.mem_append.mp h with h' | h'
        · exact Or.inl h'
        · simp only [List.mem_singleton] at h'
          subst h'
          exact Or.inr (List.mem_cons_self _ _)
      · exact Or.inr (List.mem_cons_of_mem _ h)

theorem remAux_nodigit :
    ∀ (l buf : List Char) (c : Char), c ∈ remAux buf l → isDigitCh c = false
  | [], buf, c => by
    intro hc
    rw [remAux, emitTok] at hc
    by_cases hd : buf.any isDigitCh
    · rw [if_pos hd] at hc
      simp at hc
    · rw [if_neg hd] at hc
      have := List.any_eq_false.mp (Bool.eq_false_iff.mpr hd) c hc
      exact Bool.eq_false_iff.mpr this
  | d :: rest, buf, c => by
    intro hc
    rw [remAux] at hc
    by_cases hwd : pyIsSpace d = true
    · rw [if_pos hwd] at hc
      rcases List.mem_append.mp hc with h | h
      · rw [emitTok] at h
        by_cases hd : buf.any isDigitCh
        · rw [if_pos hd] at h
          simp at h
        · rw [if_neg hd] at h
          have := List.any_eq_false.mp (Bool.eq_false_iff.mpr hd) c h
          exact Bool.eq_false_iff.mpr this
      · rcases List.mem_cons.mp h with h' | h'
        · subst h'
          exact ws_not_digit _ hwd
        · exact remAux_nodigit rest [] c h'
    · rw [if_neg hwd] at hc
      exact remAux_nodigit rest (buf ++ [d]) c hc

theorem remAux_nodigit_fix :
    ∀ (l buf : List Char), (∀ c ∈ buf, isDigitCh c = false) →
      (∀ c ∈ l, isDigitCh c = false) → remAux buf l = buf ++ l
  | [], buf => by
    intro hbuf _
    have hany : buf.any isDigitCh = false := by
      rw [List.any_eq_false]
      intro c hc
      simp [hbuf c hc]
    rw [remAux, emitTok, hany]
    simp
  | d :: rest, buf => by
    intro hbuf hl
    rw [remAux]
    by_cases hwd : pyIsSpace d = true
    · rw [if_pos hwd]
      rw [remAux_nodigit_fix rest [] (by simp) (fun c hc => hl c (List.mem_cons_of_mem _ hc))]
      rw [emitTok, if_neg]
      · rfl
      · intro hany
        rcases List.any_eq_true.mp hany with ⟨c, hc, hdig⟩
        rw [hbuf c hc] at hdig
        cases hdig
    · rw [if_neg hwd]
      rw [remAux_nodigit_fix rest (buf ++ [d])
        (by
          intro c hc
          rcases List.mem_append.mp hc with h | h
          · exact hbuf c h
          · simp only [List.mem_singleton] at h
            rw [h]
            exact hl _ (List.mem_cons_self _ _))
        (fun c hc => hl c (List.mem_cons_of_mem _ hc))]
      simp

theorem replaceSpecial_chars (l : List Char) (c : Char) (hc : c ∈ replaceSpecial l) :
    (isLowerAZ c || isDigitCh c || pyIsSpace c) = true := by
  rw [replaceSpecial] at hc
  rcases List.mem_map.mp hc with ⟨x, _, hx⟩
  by_cases hcond : (isLowerAZ x || isDigitCh x || pyIsSpace x) = true
  · rw [if_pos hcond] at hx
    exact hx ▸ hcond
  · rw [if_neg hcond] at hx
    rw [← hx]
    decide

theorem replaceSpecial_fix (l : List Char)
    (h : ∀ c ∈ l, (isLowerAZ c || c == ' ') = true) : replaceSpecial l = l := by
  rw [replaceSpecial]
  have : ∀ c ∈ l, (if isLowerAZ c || isDigitCh c || pyIsSpace c then c else ' ') = id c := by
    intro c hc
    have hcond : (isLowerAZ c || isDigitCh c || pyIsSpace c) = true := by
      rcases Bool.or_eq_true_iff.mp (h c hc) with haz | hsp
      · simp [haz]
      · have hce : c = ' ' := by simpa using hsp
        subst hce
        decide
    rw [if_pos hcond]
    rfl
  rw [List.map_congr_left this, List.map_id]

theorem map_toLower_fix (l : List Char)
    (h : ∀ c ∈ l, (isLowerAZ c || c == ' ') = true) : l.map Char.toLower = l := by
  have : ∀ c ∈ l, Char.toLower c = id c := fun c hc => toLower_fix c (h c hc)
  rw [List.map_congr_left this, List.map_id]

theorem normChars_chars (l : List Char) :
    ∀ c ∈ normChars l, (isLowerAZ c || c == ' ') = true := by
  intro c hc
  rw [normChars] at hc
  have hc1 : c ∈ collapseWS (removeNumericTokens (replaceSpecial (l.map Char.toLower))) :=
    trimWS_mem _ c hc
  rcases collapseWS_mem _ c hc1 with rfl | hc2
  · decide
  · have hnd : isDigitCh c = false := remAux_nodigit _ _ c hc2
    rcases remAux_mem _ _ c hc2 with h | h
    · simp at h
    · have halpha := replaceSpecial_chars _ c h
      rcases (by simpa using halpha :
          (isLowerAZ c = true ∨ isDigitCh c = true) ∨ pyIsSpace c = true) with ⟨h1 | h2⟩ | h3
      · simp [h1]
      · rw [hnd] at h2
        cases h2
      · have := collapseWS_ws_space _ c hc1 h3
        simp [this]

theorem normChars_idem (l : List Char) : normChars (normChars l) = normChars l := by
  have halpha : ∀ c ∈ normChars l, (isLowerAZ c || c == ' ') = true := normChars_chars l
  have hnodig : ∀ c ∈ normChars l, isDigitCh c = false := by
    intro c hc
    rcases (by simpa using halpha c hc : isLowerAZ c = true ∨ c = ' ') with h | h
    · exact az_not_digit c h
    · subst h
      decide
  have hwssp : ∀ c ∈ normChars l, pyIsSpace c = true → c = ' ' := by
    intro c hc hw
    rcases (by simpa using halpha c hc : isLowerAZ c = true ∨ c = ' ') with h | h
    · rw [ws_not_az c hw] at h
      cases h
    · exact h
  have hndbl : noDoubleWS (normChars l) = true := by
    rw [normChars]
    exact trimWS_noDouble _ (collapseWS_noDouble _)
  have h1 : (normChars l).map Char.toLower = normChars l := map_toLower_fix _ halpha
  have h2 : replaceSpecial (normChars l) = normChars l := replaceSpecial_fix _ halpha
  have h3 : removeNumericTokens (normChars l) = normChars l := by
    rw [removeNumericTokens, remAux_nodigit_fix _ [] (by simp) hnodig]
    rfl
  have h4 : collapseWS (normChars l) = normChars l := collapseWS_fix _ hndbl hwssp
  have h5 : trimWS (normChars l) = normChars l := by
    apply trimWS_fix
    · intro c hc
      rw [normChars] at hc
      exact trimWS_head_not_ws _ c hc
    · intro c hc
      rw [normChars] at hc
      exact trimWS_getLast_not_ws _ c hc
  rw [normChars, h1, h2, h3, h4, h5]

/-- C9: `normalize_text` is idempotent; it maps `"D245 issue"` to `"issue"`
and `"Invoice-Error_123"` to `"invoice error"`; it passes an absent value
through unchanged; and its output is lowercase text over `a`-`z` and single
spaces (so every digit-bearing token is gone and all punctuation has been
replaced and collapsed). -/
theorem C9_normalize_text_idempotent :
    (∀ x : Option String, normalize_text (normalize_text x) = normalize_text x) ∧
    normalize_text (some "D245 issue") = some "issue" ∧
    normalize_text (some "Invoice-Error_123") = some "invoice error" ∧
    normalize_text none = none ∧
    (∀ s : String, ((normChars s.data).all (fun c => isLowerAZ c || c == ' ')) = true) := by
  refine ⟨?_, by decide, by decide, rfl, ?_⟩
  · intro x
    cases x with
    | none => rfl
    | some s =>
      by_cases hs : s = ""
      · subst hs
        rfl
      · have h1 : normalize_text (some s) = some (String.mk (normChars s.data)) := by
          rw [normalize_text, if_neg hs]
        rw [h1, normalize_text]
        by_cases h2 : String.mk (normChars s.data) = ""
        · rw [if_pos h2]
        · rw [if_neg h2]
          have hdata : (String.mk (normChars s.data)).data = normChars s.data := rfl
          rw [hdata, normChars_idem]
  · intro s
    rw [List.all_eq_true]
    intro c hc
    exact normChars_chars s.data c hc

/-! ### C4: the issue-distribution table -/

theorem roundHalfEven_intCast (n : ℤ) : roundHalfEven (n : ℚ) = n := by
  rw [roundHalfEven, Int.floor_intCast]
  rw [if_pos]
  norm_num

theorem abs_roundHalfEven_sub (q : ℚ) : |(roundHalfEven q : ℚ) - q| ≤ 1 / 2 := by
  have h1 : (⌊q⌋ : ℚ) ≤ q := Int.floor_le q
  have h2 : q < ⌊q⌋ + 1 := Int.lt_floor_add_one q
  rw [roundHalfEven]
  by_cases hr1 : q - ⌊q⌋ < 1 / 2
  · rw [if_pos hr1]
    rw [abs_le]
    constructor <;> linarith
  · rw [if_neg hr1]
    by_cases hr2 : 1 / 2 < q - ⌊q⌋
    · rw [if_pos hr2]
      rw [abs_le]
      push_cast
      constructor <;> linarith
    · rw [if_neg hr2]
      have heq : q - ⌊q⌋ = 1 / 2 := le_antisymm (not_lt.mp hr2) (not_lt.mp hr1)
      by_cases hev : ⌊q⌋ % 2 = 0
      · rw [if_pos hev]
        rw [abs_le]
        constructor <;> linarith
      · rw [if_neg hev]
        rw [abs_le]
        push_cast
        constructor <;> linarith

theorem abs_round2_sub (q : ℚ) : |round2 q - q| ≤ 1 / 200 := by
  have h := abs_roundHalfEven_sub (q * 100)
  rw [round2]
  have : (roundHalfEven (q * 100) : ℚ) / 100 - q = ((roundHalfEven (q * 100) : ℚ) - q * 100) / 100 := by
    ring
  rw [this, abs_div]
  rw [show |(100 : ℚ)| = 100 from by norm_num]
  linarith

theorem round2_hundredth_fix (k : ℤ) : round2 ((k : ℚ) / 100) = (k : ℚ) / 100 := by
  rw [round2, show ((k : ℚ) / 100) * 100 = (k : ℚ) from by ring, roundHalfEven_intCast]

/-- The five categories the classifier can produce that also appear among the
`expected_categories` columns. -/
theorem count_partition (l : List CRec)
    (h : ∀ r ∈ l, r.category ∈ ["Interface", "Inventory", "Pricing", "STPO", "Incomplete"]) :
    ((l.filter (fun r => r.category == "Interface")).length +
        (l.filter (fun r => r.category == "Inventory")).length +
        (l.filter (fun r => r.category == "Pricing")).length +
        (l.filter (fun r => r.category == "STPO")).length +
        (l.filter (fun r => r.category == "Incomplete")).length) = l.length := by
  induction l with
  | nil => rfl
  | cons r t ih =>
    have hr := h r (List.mem_cons_self _ _)
    have ht := ih (fun x hx => h x (List.mem_cons_of_mem _ hx))
    simp only [List.mem_cons, List.mem_singleton, List.not_mem_nil, or_false] at hr
    rcases hr with h1 | h1 | h1 | h1 | h1 <;>
      simp [List.filter_cons, h1] <;>
      omega

theorem issuePct_hundredth (cdf : List CRec) (a c : String) :
    ∃ k : ℤ, issuePct cdf a c = (k : ℚ) / 100 := by
  rw [issuePct]
  by_cases h : count_category_occurrences cdf a c = 0
  · rw [if_pos h]
    exact ⟨0, by norm_num⟩
  · rw [if_neg h]
    exact ⟨roundHalfEven _, rfl⟩

theorem count_cat_eq (cdf : List CRec) (a c : String) :
    count_category_occurrences cdf a c =
      ((rowsOfAgent cdf a).filter (fun r => r.category == c)).length := by
  rw [count_category_occurrences, rowsOfAgent, List.filter_filter]
  exact congrArg List.length (List.filter_congr (fun r _ => Bool.and_comm _ _))

/-- C4 (amended): in every row of the issue-distribution table the `Total`
column equals the exact sum of the six `expected_categories` percentage
columns; that sum lies within 0.1 of 100 % for an agent whose records all
fall into the five classifier categories that appear among the expected
columns (`Interface`, `Inventory`, `Pricing`, `STPO`, `Incomplete`).  The
`Contract` column is always `0%` (the classifier emits `'Contrato'`, never
`'Contract'`), and any `'Other'` or `'Contrato'` share is simply missing from
`Total`, so the claimed `≈100 %` fails for agents holding such records. -/
theorem C4_total_sums_expected_columns :
    ∀ (df : List Rec), ∀ row ∈ aggregate_by_issue (categorize_incidents df),
      row.total =
        row.contract + row.interface + row.inventory + row.pricing + row.stpo +
          row.incomplete ∧
      ((∀ r ∈ rowsOfAgent (categorize_incidents df) row.biller,
          r.category ∈ ["Interface", "Inventory", "Pricing", "STPO", "Incomplete"]) →
        |row.total - 100| ≤ 1 / 10) := by
  intro df row hrow
  rw [aggregate_by_issue] at hrow
  rcases List.mem_map.mp hrow with ⟨a, ha, rfl⟩
  dsimp only
  obtain ⟨k1, e1⟩ := issuePct_hundredth (categorize_incidents df) a "Contract"
  obtain ⟨k2, e2⟩ := issuePct_hundredth (categorize_incidents df) a "Interface"
  obtain ⟨k3, e3⟩ := issuePct_hundredth (categorize_incidents df) a "Inventory"
  obtain ⟨k4, e4⟩ := issuePct_hundredth (categorize_incidents df) a "Pricing"
  obtain ⟨k5, e5⟩ := issuePct_hundredth (categorize_incidents df) a "STPO"
  obtain ⟨k6, e6⟩ := issuePct_hundredth (categorize_incidents df) a "Incomplete"
  have hpart1 :
      round2 (issuePct (categorize_incidents df) a "Contract" +
          issuePct (categorize_incidents df) a "Interface" +
          issuePct (categorize_incidents df) a "Inventory" +
          issuePct (categorize_incidents df) a "Pricing" +
          issuePct (categorize_incidents df) a "STPO" +
          issuePct (categorize_incidents df) a "Incomplete") =
        issuePct (categorize_incidents df) a "Contract" +
          issuePct (categorize_incidents df) a "Interface" +
          issuePct (categorize_incidents df) a "Inventory" +
          issuePct (categorize_incidents df) a "Pricing" +
          issuePct (categorize_incidents df) a "STPO" +
          issuePct (categorize_incidents df) a "Incomplete" := by
    rw [e1, e2, e3, e4, e5, e6]
    rw [show (k1 : ℚ) / 100 + k2 / 100 + k3 / 100 + k4 / 100 + k5 / 100 + k6 / 100 =
      ((k1 + k2 + k3 + k4 + k5 + k6 : ℤ) : ℚ) / 100 from by push_cast; ring]
    exact round2_hundredth_fix _
  refine ⟨hpart1, ?_⟩
  intro hfive
  -- the agent group is non-empty
  have hmem : a ∈ (categorize_incidents df).map (fun r => r.row.agent) :=
    (mem_dedupFirst _ _).mp ha
  rcases List.mem_map.mp hmem with ⟨r0, hr0, hra⟩
  have hr0' : r0 ∈ rowsOfAgent (categorize_incidents df) a :=
    List.mem_filter.mpr ⟨hr0, by simp [hra]⟩
  have hn : (rowsOfAgent (categorize_incidents df) a).length ≠ 0 := by
    intro h0
    rw [List.length_eq_zero] at h0
    rw [h0] at hr0'
    simp at hr0'
  have hnq : ((rowsOfAgent (categorize_incidents df) a).length : ℚ) ≠ 0 := by
    exact_mod_cast hn
  -- the Contract column is exactly zero
  have hContract : issuePct (categorize_incidents df) a "Contract" = 0 := by
    rw [issuePct, if_pos]
    rw [count_cat_eq, List.length_eq_zero, List.filter_eq_nil_iff]
    intro r hr
    have := hfive r hr
    intro hcat
    rw [beq_iff_eq] at hcat
    rw [hcat] at this
    simp at this
  -- per-column rounding bounds against the exact shares
  have hb : ∀ c : String,
      |issuePct (categorize_incidents df) a c -
        (((rowsOfAgent (categorize_incidents df) a).filter
            (fun r => r.category == c)).length : ℚ) /
          ((rowsOfAgent (categorize_incidents df) a).length : ℚ) * 100| ≤ 1 / 200 := by
    intro c
    rw [issuePct, count_cat_eq]
    by_cases h0 : ((rowsOfAgent (categorize_incidents df) a).filter
        (fun r => r.category == c)).length = 0
    · rw [if_pos h0, h0]
      norm_num
    · rw [if_neg h0]
      exact abs_round2_sub _
  have hbI := abs_le.mp (hb "Interface")
  have hbV := abs_le.mp (hb "Inventory")
  have hbP := abs_le.mp (hb "Pricing")
  have hbS := abs_le.mp (hb "STPO")
  have hbC := abs_le.mp (hb "Incomplete")
  -- the five shares sum to exactly 100
  have hp := count_partition (rowsOfAgent (categorize_incidents df) a) hfive
  have hpq : ((((rowsOfAgent (categorize_incidents df) a).filter
          (fun r => r.category == "Interface")).length : ℚ) +
        (((rowsOfAgent (categorize_incidents df) a).filter
          (fun r => r.category == "Inventory")).length : ℚ) +
        (((rowsOfAgent (categorize_incidents df) a).filter
          (fun r => r.category == "Pricing")).length : ℚ) +
        (((rowsOfAgent (categorize_incidents df) a).filter
          (fun r => r.category == "STPO")).length : ℚ) +
        (((rowsOfAgent (categorize_incidents df) a).filter
          (fun r => r.category == "Incomplete")).length : ℚ)) =
      ((rowsOfAgent (categorize_incidents df) a).length : ℚ) := by
    exact_mod_cast hp
  have htsum :
      (((rowsOfAgent (categorize_incidents df) a).filter
          (fun r => r.category == "Interface")).length : ℚ) /
        ((rowsOfAgent (categorize_incidents df) a).length : ℚ) * 100 +
      (((rowsOfAgent (categorize_incidents df) a).filter
          (fun r => r.category == "Inventory")).length : ℚ) /
        ((rowsOfAgent (categorize_incidents df) a).length : ℚ) * 100 +
      (((rowsOfAgent (categorize_incidents df) a).filter
          (fun r => r.category == "Pricing")).length : ℚ) /
        ((rowsOfAgent (categorize_incidents df) a).length : ℚ) * 100 +
      (((rowsOfAgent (categorize_incidents df) a).filter
          (fun r => r.category == "STPO")).length : ℚ) /
        ((rowsOfAgent (categorize_incidents df) a).length : ℚ) * 100 +
      (((rowsOfAgent (categorize_incidents df) a).filter
          (fun r => r.category == "Incomplete")).length : ℚ) /
        ((rowsOfAgent (categorize_incidents df) a).length : ℚ) * 100 = 100 := by
    field_simp
    linarith [hpq]
  rw [hpart1, hContract]
  rw [abs_le]
  constructor <;> linarith

/-- C4 (counterexample): for the one-agent table whose only record classifies
as `'Other'`, every expected-category column is `0%` and `Total = 0%`, which
is not within 0.1 of 100 % — the claim that each agent's `Total` is ≈100 %
fails. -/
theorem C4_other_breaks_total :
    ∃ row ∈ aggregate_by_issue (categorize_incidents exC4),
      ¬(|row.total - 100| ≤ 1 / 10) := by
  refine ⟨_, List.mem_map.mpr ⟨"A", by decide, rfl⟩, ?_⟩
  dsimp only
  have h1 : issuePct (categorize_incidents exC4) "A" "Contract" = 0 := by
    rw [issuePct, if_pos (by decide)]
  have h2 : issuePct (categorize_incidents exC4) "A" "Interface" = 0 := by
    rw [issuePct, if_pos (by decide)]
  have h3 : issuePct (categorize_incidents exC4) "A" "Inventory" = 0 := by
    rw [issuePct, if_pos (by decide)]
  have h4 : issuePct (categorize_incidents exC4) "A" "Pricing" = 0 := by
    rw [issuePct, if_pos (by decide)]
  have h5 : issuePct (categorize_incidents exC4) "A" "STPO" = 0 := by
    rw [issuePct, if_pos (by decide)]
  have h6 : issuePct (categorize_incidents exC4) "A" "Incomplete" = 0 := by
    rw [issuePct, if_pos (by decide)]
  rw [h1, h2, h3, h4, h5, h6]
  rw [show ((0 : ℚ) + 0 + 0 + 0 + 0 + 0) = ((0 : ℤ) : ℚ) / 100 from by norm_num]
  rw [round2_hundredth_fix]
  norm_num

/-- C4 (witness): `C4_total_sums_expected_columns` on the two-record agent of
`exC4w` (one `Interface`, one `STPO` record): `Total` equals the column sum
and lies within 0.1 of 100 %. -/
theorem C4_total_witness :
    ∃ row ∈ aggregate_by_issue (categorize_incidents exC4w),
      row.total =
        row.contract + row.interface + row.inventory + row.pricing + row.stpo +
          row.incomplete ∧
      |row.total - 100| ≤ 1 / 10 := by
  refine ⟨_, List.mem_map.mpr ⟨"A", by decide, rfl⟩, ?_⟩
  have h := C4_total_sums_expected_columns exC4w _ (List.mem_map.mpr ⟨"A", by decide, rfl⟩)
  exact ⟨h.1, h.2 (by decide)⟩

/-! ### C5: the inventory rollup -/

theorem dedupFirst_eq_nil_iff {α : Type} [DecidableEq α] (l : List α) :
    dedupFirst l = [] ↔ l = [] := by
  cases l with
  | nil => simp [dedupFirst, dedupAux]
  | cons x xs =>
    rw [dedupFirst, dedupAux]
    simp

theorem invCell_single_task (df : List Rec) (region : String) (plant : Int)
    (biller u : String)
    (h : (invCellTasks df region plant biller u).length ≤ 1) :
    invCell df region plant biller u =
      ((invCellRows df region plant biller u).map (fun r => r.deliveryQty)).sum := by
  rw [invCell]
  cases hts : invCellTasks df region plant biller u with
  | nil =>
    have hrows : invCellRows df region plant biller u = [] := by
      have := (dedupFirst_eq_nil_iff _).mp hts
      exact List.map_eq_nil_iff.mp this
    rw [hrows]
    simp
  | cons t ts' =>
    cases ts' with
    | cons t2 ts'' =>
      rw [hts] at h
      simp at h
    | nil =>
      rw [if_neg (by simp)]
      have hall : (invCellRows df region plant biller u).filter
          (fun r => r.taskText == t) = invCellRows df region plant biller u := by
        rw [List.filter_eq_self]
        intro r hr
        have hmem : r.taskText ∈ dedupFirst
            ((invCellRows df region plant biller u).map (fun r => r.taskText)) :=
          (mem_dedupFirst _ _).mpr (List.mem_map_of_mem _ hr)
        rw [invCellTasks] at hts
        rw [hts] at hmem
        simp only [List.mem_singleton] at hmem
        simp [hmem]
      simp [hall]

theorem inv_ton_total (df : List Rec) :
    ((aggregate_by_inventory df).map (fun r => r.ton)).sum =
      ((invPivotKeys df).map (fun k => invCell df k.1 k.2.1 k.2.2 "TON")).sum := by
  rw [aggregate_by_inventory, List.map_map]
  rfl

theorem inv_to_total (df : List Rec) :
    ((aggregate_by_inventory df).map (fun r => r.toUnit)).sum =
      ((invPivotKeys df).map (fun k => invCell df k.1 k.2.1 k.2.2 "TO")).sum := by
  rw [aggregate_by_inventory, List.map_map]
  rfl

theorem inv_yd3_total (df : List Rec) :
    ((aggregate_by_inventory df).map (fun r => r.yd3)).sum =
      ((invPivotKeys df).map (fun k => invCell df k.1 k.2.1 k.2.2 "YD3")).sum := by
  rw [aggregate_by_inventory, List.map_map]
  rfl

/-- C5 (amended): in every row of the inventory rollup each unit cell equals
the `pivot_table` default-`mean` over the distinct task-text variants of the
per-task quantity sums — hence it equals the plain group sum exactly when the
`(region, plant, biller, unit)` group holds at most one distinct task text —
and each share column equals the cell over the unit column's grand total
times 100, rounded to two decimals (0 when that total is not positive). -/
theorem C5_inventory_cell_values :
    ∀ (df : List Rec), ∀ row ∈ aggregate_by_inventory df,
      ((invCellTasks df row.region row.plant row.biller "TON").length ≤ 1 →
        row.ton = ((invCellRows df row.region row.plant row.biller "TON").map
          (fun r => r.deliveryQty)).sum) ∧
      ((invCellTasks df row.region row.plant row.biller "TO").length ≤ 1 →
        row.toUnit = ((invCellRows df row.region row.plant row.biller "TO").map
          (fun r => r.deliveryQty)).sum) ∧
      ((invCellTasks df row.region row.plant row.biller "YD3").length ≤ 1 →
        row.yd3 = ((invCellRows df row.region row.plant row.biller "YD3").map
          (fun r => r.deliveryQty)).sum) ∧
      row.tonPct =
        (if 0 < ((aggregate_by_inventory df).map (fun r => r.ton)).sum then
          round2 (row.ton / ((aggregate_by_inventory df).map (fun r => r.ton)).sum * 100)
        else 0) ∧
      row.toPct =
        (if 0 < ((aggregate_by_inventory df).map (fun r => r.toUnit)).sum then
          round2 (row.toUnit /
            ((aggregate_by_inventory df).map (fun r => r.toUnit)).sum * 100)
        else 0) ∧
      row.yd3Pct =
        (if 0 < ((aggregate_by_inventory df).map (fun r => r.yd3)).sum then
          round2 (row.yd3 /
            ((aggregate_by_inventory df).map (fun r => r.yd3)).sum * 100)
        else 0) := by
  intro df row hrow
  rw [inv_ton_total, inv_to_total, inv_yd3_total]
  rw [aggregate_by_inventory] at hrow
  rcases List.mem_map.mp hrow with ⟨k, hk, rfl⟩
  dsimp only
  refine ⟨fun h => invCell_single_task df k.1 k.2.1 k.2.2 "TON" h,
    fun h => invCell_single_task df k.1 k.2.1 k.2.2 "TO" h,
    fun h => invCell_single_task df k.1 k.2.1 k.2.2 "YD3" h, rfl, rfl, rfl⟩

/-- C5 (counterexample): the group `(R, 1, A, TON)` of `exC5` holds the two
task-text variants with quantities 10 and 20; the emitted `Ton` cell is their
`pivot_table`-default mean `15`, not the claimed group sum `30`. -/
theorem C5_cell_is_mean_not_sum :
    ∃ row ∈ aggregate_by_inventory exC5,
      row.region = "R" ∧ row.plant = 1 ∧ row.biller = "A" ∧
      row.ton ≠
        ((invCellRows exC5 "R" 1 "A" "TON").map (fun r => r.deliveryQty)).sum := by
  have hcell : invCell exC5 "R" 1 "A" "TON" = 15 := by
    rw [invCell]
    rw [show invCellTasks exC5 "R" 1 "A" "TON" =
      ["COMMAND - Ticket not Goods Issued", "JWS/APEX - Ticket not Goods Issued"] from by
        decide]
    rw [if_neg (by simp)]
    simp only [invCellRows, inventory_processed, exC5, inventory_issues, inventory_units,
      List.filter, List.map]
    norm_num
  have hsum : ((invCellRows exC5 "R" 1 "A" "TON").map (fun r => r.deliveryQty)).sum = 30 := by
    simp only [invCellRows, inventory_processed, exC5, inventory_issues, inventory_units,
      List.filter, List.map]
    norm_num
  rw [aggregate_by_inventory]
  rw [show invPivotKeys exC5 = [("R", 1, "A")] from by decide]
  refine ⟨_, List.mem_map.mpr ⟨("R", 1, "A"), List.mem_singleton.mpr rfl, rfl⟩, rfl, rfl, rfl, ?_⟩
  dsimp only
  rw [hcell, hsum]
  norm_num

/-- C5 (witness): `C5_inventory_cell_values` on the single-variant table
`exC5w`: the `Ton` cell equals the plain group sum 10 and its share is
100 %. -/
theorem C5_single_task_witness :
    ∃ row ∈ aggregate_by_inventory exC5w, row.ton = 10 ∧ row.tonPct = 100 := by
  have hsum : ((invCellRows exC5w "R" 1 "A" "TON").map (fun r => r.deliveryQty)).sum = 10 := by
    simp only [invCellRows, inventory_processed, exC5w, inventory_issues, inventory_units,
      List.filter, List.map]
    norm_num
  rw [aggregate_by_inventory]
  rw [show invPivotKeys exC5w = [("R", 1, "A")] from by decide]
  refine ⟨_, List.mem_map.mpr ⟨("R", 1, "A"), List.mem_singleton.mpr rfl, rfl⟩, ?_, ?_⟩
  · dsimp only
    have h := C5_inventory_cell_values exC5w _
      (by
        rw [aggregate_by_inventory]
        rw [show invPivotKeys exC5w = [("R", 1, "A")] from by decide]
        exact List.mem_map.mpr ⟨("R", 1, "A"), List.mem_singleton.mpr rfl, rfl⟩)
    have h1 := h.1 (by decide)
    rw [show invCell exC5w "R" 1 "A" "TON" =
      ((invCellRows exC5w "R" 1 "A" "TON").map (fun r => r.deliveryQty)).sum from h1]
    rw [hsum]
  · dsimp only
    have hcell : invCell exC5w "R" 1 "A" "TON" = 10 := by
      have h := C5_inventory_cell_values exC5w _
        (by
          rw [aggregate_by_inventory]
          rw [show invPivotKeys exC5w = [("R", 1, "A")] from by decide]
          exact List.mem_map.mpr ⟨("R", 1, "A"), List.mem_singleton.mpr rfl, rfl⟩)
      have h1 := h.1 (by decide)
      rw [show (invCell exC5w "R" 1 "A" "TON") =
        ((invCellRows exC5w "R" 1 "A" "TON").map (fun r => r.deliveryQty)).sum from h1]
      exact hsum
    simp only [List.map_cons, List.map_nil, List.sum_cons, List.sum_nil, add_zero]
    rw [hcell]
    rw [if_pos (by norm_num)]
    rw [show (10 : ℚ) / 10 * 100 = ((10000 : ℤ) : ℚ) / 100 from by norm_num]
    rw [round2_hundredth_fix]
    norm_num
